import Mathlib

/-!
Shallow embedding of the conflict-resolution and booking-decision engine of
`src/lambda_function.py` (a LINE × Google Calendar booking lambda).

Modelling conventions:
* Instants (`datetime` values) are `Int` seconds on a global timeline.
* A time range `(start, end)` is a pair `Int × Int`, read as the half-open
  interval `[start, end)`.
* A calendar event (a Google Calendar event dict) is `CalEvent`; `id` and
  `status` are `Option String` (`none` = key absent), the event's parsed
  range (`_event_range`) is carried directly as `rstart`/`rend`, and
  `description` is the free-text description field that may embed the
  `LINE_USER_ID:<id>` owner marker.
* Timezone/date arithmetic (`ZoneInfo`, `astimezone`, `date`,
  `datetime.combine` with the `WORK_START`/`WORK_END` configuration) is
  abstracted by a `Config` of functions from an instant to the
  day-fetch window and to the working window of that instant's calendar day.
* The external Google Calendar query `_list_events(calendar_id, lo, hi)` is
  abstracted as a function `fetch : Int → Int → List CalEvent`.
* Calendar mutations (`events().insert/update/delete`) are recorded in an
  output `List CalAction` instead of being performed; exceptions caught by the
  top-level `except` block become the `Outcome.error` value (with no action).
-/

/-- A calendar event as the engine sees it: the dict fields consulted by
`_has_conflict`, `_compute_free_slots` and `_find_target_event`. -/
structure CalEvent where
  id : Option String
  status : Option String
  rstart : Int
  rend : Int
  description : String
deriving DecidableEq, Repr

/-- Python truthiness of an `Optional[str]`: `None` and `""` are falsy. -/
def strTruthy : Option String → Bool
  | none => false
  | some s => !(s == "")

/-- `_has_conflict(events, exclude_event_id)` (lambda_function.py:211-218):
skip events whose `status` is exactly `"cancelled"`; skip the excluded event
when `exclude_event_id` is truthy; return `True` at the first remaining
event, `False` if none remain. -/
def has_conflict (events : List CalEvent) (exclude_event_id : Option String) : Bool :=
  match events with
  | [] => false
  | e :: rest =>
    if e.status == some "cancelled" then has_conflict rest exclude_event_id
    else if strTruthy exclude_event_id && (e.id == exclude_event_id) then
      has_conflict rest exclude_event_id
    else true

/-- Comparison key of `ranges.sort(key=lambda x: x[0])`: ascending start. -/
def startLE (a b : Int × Int) : Bool := a.1 ≤ b.1

/-- The post-state of the argument of `_merge_busy_ranges`: `ranges.sort(...)`
(lambda_function.py:224) reorders the caller's list in place, stably,
ascending by start. -/
def merge_busy_state (ranges : List (Int × Int)) : List (Int × Int) :=
  ranges.mergeSort startLE

/-- The fold of `_merge_busy_ranges` (lambda_function.py:225-231): `cur` is
`merged[-1]`; if the next range's start is ≤ the current end, extend the
current end to the max of both ends, otherwise emit `cur` and start fresh. -/
def mergeLoop : (Int × Int) → List (Int × Int) → List (Int × Int)
  | cur, [] => [cur]
  | cur, (s, e) :: rest =>
    if s ≤ cur.2 then mergeLoop (cur.1, max cur.2 e) rest
    else cur :: mergeLoop (s, e) rest

/-- `_merge_busy_ranges(ranges)` (lambda_function.py:221-232): empty input
returns `[]`; otherwise sort ascending by start and fold. -/
def merge_busy_ranges (ranges : List (Int × Int)) : List (Int × Int) :=
  match ranges.mergeSort startLE with
  | [] => []
  | r :: rest => mergeLoop r rest

/-- The busy-collection loop of `_compute_free_slots`
(lambda_function.py:247-254): keep non-cancelled events overlapping the
working window and clip each to the window. -/
def clip_busy (events : List CalEvent) (window_start window_end : Int) :
    List (Int × Int) :=
  events.filterMap fun e =>
    if e.status == some "cancelled" then none
    else if e.rend ≤ window_start || e.rstart ≥ window_end then none
    else some (max e.rstart window_start, min e.rend window_end)

/-- The gap walk of `_compute_free_slots` (lambda_function.py:257-264):
cursor starts at `window_start`; each positive gap before a busy range is a
candidate; the cursor advances to `max cursor busy_end`; a trailing gap is
emitted when the cursor ends before `window_end`. -/
def free_walk (cursor : Int) (busy : List (Int × Int)) (window_end : Int) :
    List (Int × Int) :=
  match busy with
  | [] => if cursor < window_end then [(cursor, window_end)] else []
  | (s, e) :: rest =>
    (if cursor < s then [(cursor, s)] else []) ++ free_walk (max cursor e) rest window_end

/-- `_compute_free_slots(events, target_date, tz, duration_minutes)`
(lambda_function.py:235-267). The working window
`[window_start, window_end)` stands for
`datetime.combine(target_date, WORK_START/WORK_END, tzinfo)`; the final
filter keeps candidates of duration ≥ `timedelta(minutes=duration_minutes)`,
i.e. `duration_minutes * 60` seconds. -/
def compute_free_slots (events : List CalEvent) (window_start window_end : Int)
    (duration_minutes : Int) : List (Int × Int) :=
  let busy := merge_busy_ranges (clip_busy events window_start window_end)
  let free := free_walk window_start busy window_end
  free.filter fun r => r.2 - r.1 ≥ duration_minutes * 60

/-- `needle` is an initial segment of `hay` (character-wise). -/
def leadMatch : List Char → List Char → Bool
  | [], _ => true
  | _ :: _, [] => false
  | c :: cs, d :: ds => c == d && leadMatch cs ds

/-- Python's `needle in hay` substring test, on character lists. -/
def containsSeq : List Char → List Char → Bool
  | needle, [] => leadMatch needle []
  | needle, c :: t => leadMatch needle (c :: t) || containsSeq needle t

/-- The owner check of `_find_target_event` (lambda_function.py:313-315):
`f"LINE_USER_ID:{user_id}" in description`, i.e. substring containment. -/
def ownerMatches (user_id : String) (e : CalEvent) : Bool :=
  containsSeq ("LINE_USER_ID:" ++ user_id).toList e.description.toList

/-- The scan loop of `_find_target_event` (lambda_function.py:312-322) over
the already-fetched event list: skip events not carrying the requester's
owner marker (only when `user_id` is non-empty); with a `target_dt`, return
the first remaining event whose start is within 3600 seconds of it;
without one, return the first remaining event. -/
def find_target_event (events : List CalEvent) (user_id : String)
    (target_dt : Option Int) : Option CalEvent :=
  match events with
  | [] => none
  | e :: rest =>
    if !(user_id == "") && !ownerMatches user_id e then
      find_target_event rest user_id target_dt
    else
      match target_dt with
      | some t =>
        if (e.rstart - t).natAbs ≤ 3600 then some e
        else find_target_event rest user_id target_dt
      | none => some e

/-- The fetch window of `_find_target_event` (lambda_function.py:303-311):
`[target_dt − 4h, target_dt + 4h]` when a target instant is given, else
`[now, now + 30d]`. -/
def target_fetch_window (now : Int) (target_dt : Option Int) : Int × Int :=
  match target_dt with
  | some t => (t - 4 * 3600, t + 4 * 3600)
  | none => (now, now + 30 * 86400)

/-- Structured intent as produced by `_extract_intent` (the fields the
decision engine reads); `none` models a `null`/absent datetime. -/
structure Intent where
  kind : String
  istart : Option Int
  iend : Option Int
  target : Option Int
deriving DecidableEq, Repr

/-- The timezone/date arithmetic of `_handle_message`, abstracted: for an
instant, `dayWindow` is the `[combine(date, time.min), combine(date, time.max)]`
fetch window of its calendar day (lambda_function.py:433-439) and
`workWindow` is that day's `[WORK_START, WORK_END)` working window used by
`_compute_free_slots`. -/
structure Config where
  dayWindow : Int → Int × Int
  workWindow : Int → Int × Int

/-- A calendar mutation issued by `_handle_message`. -/
inductive CalAction where
  | insert (range : Int × Int)
  | update (eventId : String) (range : Int × Int)
  | delete (eventId : String)
deriving DecidableEq, Repr

/-- The decision outcome of `_handle_message`, read off the `log["status"]`
value of each return path: `error` covers any raised-and-caught exception
(validation failure included), `refused` is the `"conflict"` path and
carries the computed free slots (of which the reply message renders the
first three). -/
inductive Outcome where
  | error
  | notFound
  | deleted (eventId : String)
  | refused (slots : List (Int × Int))
  | updated (eventId : String) (range : Int × Int)
  | created (range : Int × Int)
deriving DecidableEq, Repr

/-- The shared conflict/refusal/mutation tail of `_handle_message`
(lambda_function.py:430-471), reached with both `start_dt` and `end_dt`
present: fetch the proposed range, check conflicts excluding the resolved
target (if any); on conflict compute the proposed start's day free slots
with the requested duration `int((end−start)/60)` minutes; otherwise update
the target (change) or insert a new event. -/
def refusal_slots (cfg : Config) (fetch : Int → Int → List CalEvent)
    (s t : Int) : List (Int × Int) :=
  let day := cfg.dayWindow s
  let work := cfg.workWindow s
  compute_free_slots (fetch day.1 day.2) work.1 work.2 ((t - s) / 60)

/-- See `refusal_slots` above for the conflict branch (the day's free slots
with duration `int((end−start).total_seconds() / 60)` minutes); this is
reached from `_handle_message` with `target = some ev` exactly when the
intent is `change`, so `Updated` vs `Created` follows
`if intent == "change" and target_event` (lambda_function.py:456). -/
def decide_tail (cfg : Config) (fetch : Int → Int → List CalEvent)
    (intent_kind : String) (s t : Int) (target : Option CalEvent) :
    Outcome × List CalAction :=
  match target with
  | some ev =>
    match ev.id with
    | none => (Outcome.error, [])  -- target_event["id"] raises KeyError
    | some i =>
      if has_conflict (fetch s t) (some i) then
        (Outcome.refused (refusal_slots cfg fetch s t), [])
      else if intent_kind == "change" then
        (Outcome.updated i (s, t), [CalAction.update i (s, t)])
      else
        (Outcome.created (s, t), [CalAction.insert (s, t)])
  | none =>
    if has_conflict (fetch s t) none then
      (Outcome.refused (refusal_slots cfg fetch s t), [])
    else
      (Outcome.created (s, t), [CalAction.insert (s, t)])

/-- The decision core of `_handle_message` (lambda_function.py:391-471),
from the extracted intent onward. Missing `start_dt`/`end_dt` for
`new`/`change` raises `ValueError` → caught → `error`. `cancel` resolves the
target over the 30-day/±4h window: `notFound` or `deleted`. `change`
resolves the target first: `notFound` short-circuits before any conflict
check. The remaining paths run `decide_tail`; reaching it with a missing
datetime (only possible for intents other than new/change/cancel) raises in
`_to_rfc3339` → `error`. -/
def handle_message (cfg : Config) (fetch : Int → Int → List CalEvent)
    (now : Int) (user_id : String) (intent : Intent) : Outcome × List CalAction :=
  if (intent.kind == "new" || intent.kind == "change")
      && (intent.istart.isNone || intent.iend.isNone) then
    (Outcome.error, [])
  else if intent.kind == "cancel" then
    let w := target_fetch_window now intent.target
    match find_target_event (fetch w.1 w.2) user_id intent.target with
    | none => (Outcome.notFound, [])
    | some ev =>
      match ev.id with
      | some i => (Outcome.deleted i, [CalAction.delete i])
      | none => (Outcome.error, [])  -- target_event["id"] raises KeyError
  else if intent.kind == "change" then
    let w := target_fetch_window now intent.target
    match find_target_event (fetch w.1 w.2) user_id intent.target with
    | none => (Outcome.notFound, [])
    | some ev =>
      match intent.istart, intent.iend with
      | some s, some t => decide_tail cfg fetch intent.kind s t (some ev)
      | _, _ => (Outcome.error, [])
  else
    match intent.istart, intent.iend with
    | some s, some t => decide_tail cfg fetch intent.kind s t none
    | _, _ => (Outcome.error, [])

/-- `x` lies in some half-open range `[start, end)` of the list. -/
def covered (x : Int) (rs : List (Int × Int)) : Prop :=
  ∃ r ∈ rs, r.1 ≤ x ∧ x < r.2

instance (x : Int) (rs : List (Int × Int)) : Decidable (covered x rs) := by
  unfold covered; infer_instance

/-- Boolean range membership used for counting coverage multiplicity. -/
def coversB (x : Int) (r : Int × Int) : Bool :=
  decide (r.1 ≤ x ∧ x < r.2)

/-- How many ranges of the list contain the point `x`. -/
def countCover (x : Int) (rs : List (Int × Int)) : Nat :=
  rs.countP (coversB x)

/-- Well-separated busy ranges inside `[lo, hi)`: each range starts at or
after the previous end, is non-empty-or-degenerate (`start ≤ end`), and
stays inside the window. This is the shape `_compute_free_slots` hands to
its gap walk. -/
def WellSep (lo hi : Int) : List (Int × Int) → Prop
  | [] => True
  | r :: rest => lo ≤ r.1 ∧ r.1 ≤ r.2 ∧ r.2 ≤ hi ∧ WellSep r.2 hi rest

/-- Fixture: an active event with an id and an owner marker for user `u1`. -/
def tevSample : CalEvent := ⟨some "T", none, 100, 200, "LINE_USER_ID:u1"⟩

/-- Fixture: a cancelled event. -/
def cancelledEv : CalEvent := ⟨some "c", some "cancelled", 0, 10, ""⟩

/-- Fixture: an active event `[0, 50)` used against the window `[0, 100)`. -/
def ex3events : List CalEvent := [⟨some "e", none, 0, 50, ""⟩]

/-- Fixture: an event starting at 13:40 (49200 s into the day). -/
def ev1340 : CalEvent := ⟨some "a", none, 49200, 50400, "LINE_USER_ID:u1"⟩

/-- Fixture: an event starting at 16:00 (57600 s into the day). -/
def ev1600 : CalEvent := ⟨some "b", none, 57600, 59400, "LINE_USER_ID:u1"⟩

/-- Fixture: an active event whose id is the empty string. -/
def emptyIdEv : CalEvent := ⟨some "", none, 0, 10, ""⟩

/-- Fixture: a trivial day/work window configuration. -/
def cfg0 : Config := ⟨fun _ => (0, 0), fun _ => (0, 0)⟩

/-- Fixture: a calendar with no events. -/
def fetchEmpty : Int → Int → List CalEvent := fun _ _ => []

/-- Fixture: a calendar whose every query returns the single event
`tevSample`. -/
def fetchTev : Int → Int → List CalEvent := fun _ _ => [tevSample]

theorem startLE_trans : ∀ a b c : Int × Int, startLE a b → startLE b c → startLE a c := by
  intro a b c hab hbc
  simp only [startLE, decide_eq_true_eq] at *
  omega

theorem startLE_total : ∀ a b : Int × Int, startLE a b || startLE b a := by
  intro a b
  simp only [startLE, Bool.or_eq_true, decide_eq_true_eq]
  omega

theorem covered_perm {l₁ l₂ : List (Int × Int)} (h : l₁.Perm l₂) (x : Int) :
    covered x l₁ ↔ covered x l₂ := by
  unfold covered
  constructor
  · rintro ⟨r, hr, hx⟩
    exact ⟨r, h.mem_iff.mp hr, hx⟩
  · rintro ⟨r, hr, hx⟩
    exact ⟨r, h.mem_iff.mpr hr, hx⟩

theorem mergeLoop_start_le (rest : List (Int × Int)) (cur : Int × Int)
    (h : List.Pairwise (fun a b : Int × Int => a.1 ≤ b.1) (cur :: rest)) :
    ∀ b ∈ mergeLoop cur rest, cur.1 ≤ b.1 := by
  induction rest generalizing cur with
  | nil =>
    intro b hb
    simp only [mergeLoop, List.mem_singleton] at hb
    simp [hb]
  | cons p rest ih =>
    obtain ⟨s, e⟩ := p
    rcases List.pairwise_cons.mp h with ⟨hcur, htail⟩
    intro b hb
    simp only [mergeLoop] at hb
    split at hb
    · have hp : List.Pairwise (fun a b : Int × Int => a.1 ≤ b.1)
          ((cur.1, max cur.2 e) :: rest) := by
        refine List.pairwise_cons.mpr ⟨?_, (List.pairwise_cons.mp htail).2⟩
        intro r hr
        exact hcur r (List.mem_cons_of_mem _ hr)
      exact ih (cur.1, max cur.2 e) hp b hb
    · rcases List.mem_cons.mp hb with rfl | hb'
      · exact le_refl _
      · have hs : cur.1 ≤ s := hcur (s, e) (List.mem_cons_self _ _)
        exact le_trans hs (ih (s, e) htail b hb')

theorem mergeLoop_sorted (rest : List (Int × Int)) (cur : Int × Int)
    (h : List.Pairwise (fun a b : Int × Int => a.1 ≤ b.1) (cur :: rest)) :
    List.Pairwise (fun a b : Int × Int => a.1 ≤ b.1) (mergeLoop cur rest) := by
  induction rest generalizing cur with
  | nil => simp [mergeLoop]
  | cons p rest ih =>
    obtain ⟨s, e⟩ := p
    rcases List.pairwise_cons.mp h with ⟨hcur, htail⟩
    simp only [mergeLoop]
    split
    · refine ih (cur.1, max cur.2 e) ?_
      refine List.pairwise_cons.mpr ⟨?_, (List.pairwise_cons.mp htail).2⟩
      intro r hr
      exact hcur r (List.mem_cons_of_mem _ hr)
    · refine List.pairwise_cons.mpr ⟨?_, ih (s, e) htail⟩
      intro b hb
      have hs : cur.1 ≤ s := hcur (s, e) (List.mem_cons_self _ _)
      exact le_trans hs (mergeLoop_start_le rest (s, e) htail b hb)

theorem mergeLoop_disjoint (rest : List (Int × Int)) (cur : Int × Int)
    (h : List.Pairwise (fun a b : Int × Int => a.1 ≤ b.1) (cur :: rest)) :
    List.Pairwise (fun a b : Int × Int => a.2 < b.1) (mergeLoop cur rest) := by
  induction rest generalizing cur with
  | nil => simp [mergeLoop]
  | cons p rest ih =>
    obtain ⟨s, e⟩ := p
    rcases List.pairwise_cons.mp h with ⟨hcur, htail⟩
    simp only [mergeLoop]
    split
    · refine ih (cur.1, max cur.2 e) ?_
      refine List.pairwise_cons.mpr ⟨?_, (List.pairwise_cons.mp htail).2⟩
      intro r hr
      exact hcur r (List.mem_cons_of_mem _ hr)
    · rename_i hgt
      refine List.pairwise_cons.mpr ⟨?_, ih (s, e) htail⟩
      intro b hb
      have hs : s ≤ b.1 := mergeLoop_start_le rest (s, e) htail b hb
      omega

theorem covered_cons (x : Int) (r : Int × Int) (l : List (Int × Int)) :
    covered x (r :: l) ↔ (r.1 ≤ x ∧ x < r.2) ∨ covered x l := by
  unfold covered
  constructor
  · rintro ⟨r', hr', hh⟩
    rcases List.mem_cons.mp hr' with rfl | hr'
    · exact Or.inl hh
    · exact Or.inr ⟨r', hr', hh⟩
  · rintro (hh | ⟨r', hr', hh⟩)
    · exact ⟨r, List.mem_cons_self _ _, hh⟩
    · exact ⟨r', List.mem_cons_of_mem _ hr', hh⟩

theorem mergeLoop_covered (rest : List (Int × Int)) (cur : Int × Int)
    (h : List.Pairwise (fun a b : Int × Int => a.1 ≤ b.1) (cur :: rest)) (x : Int) :
    covered x (mergeLoop cur rest) ↔ covered x (cur :: rest) := by
  induction rest generalizing cur with
  | nil => simp [mergeLoop]
  | cons p rest ih =>
    obtain ⟨s, e⟩ := p
    rcases List.pairwise_cons.mp h with ⟨hcur, htail⟩
    have hs : cur.1 ≤ s := hcur (s, e) (List.mem_cons_self _ _)
    simp only [mergeLoop]
    split
    · rename_i hle
      have hp : List.Pairwise (fun a b : Int × Int => a.1 ≤ b.1)
          ((cur.1, max cur.2 e) :: rest) := by
        refine List.pairwise_cons.mpr ⟨?_, (List.pairwise_cons.mp htail).2⟩
        intro r hr
        exact hcur r (List.mem_cons_of_mem _ hr)
      rw [ih (cur.1, max cur.2 e) hp]
      rw [covered_cons, covered_cons, covered_cons]
      have key : ((cur.1, max cur.2 e).1 ≤ x ∧ x < (cur.1, max cur.2 e).2) ↔
          ((cur.1 ≤ x ∧ x < cur.2) ∨ ((s, e).1 ≤ x ∧ x < (s, e).2)) := by
        simp only
        rcases le_total cur.2 e with h' | h'
        · rw [max_eq_right h']
          omega
        · rw [max_eq_left h']
          omega
      rw [key]
      tauto
    · rename_i hgt
      rw [covered_cons, covered_cons]
      rw [ih (s, e) htail]

theorem mergeSort_sorted_starts (R : List (Int × Int)) :
    List.Pairwise (fun a b : Int × Int => a.1 ≤ b.1) (R.mergeSort startLE) := by
  have h := List.sorted_mergeSort startLE_trans startLE_total R
  exact h.imp (fun hab => by simpa [startLE] using hab)

theorem mergeLoop_bounds (rest : List (Int × Int)) (cur : Int × Int) (lo hi : Int)
    (h : ∀ r ∈ cur :: rest, lo ≤ r.1 ∧ r.1 ≤ r.2 ∧ r.2 ≤ hi) :
    ∀ b ∈ mergeLoop cur rest, lo ≤ b.1 ∧ b.1 ≤ b.2 ∧ b.2 ≤ hi := by
  induction rest generalizing cur with
  | nil =>
    intro b hb
    simp only [mergeLoop, List.mem_singleton] at hb
    exact hb ▸ h cur (List.mem_cons_self _ _)
  | cons p rest ih =>
    obtain ⟨s, e⟩ := p
    intro b hb
    simp only [mergeLoop] at hb
    have hcur := h cur (List.mem_cons_self _ _)
    have hse := h (s, e) (List.mem_cons_of_mem _ (List.mem_cons_self _ _))
    split at hb
    · refine ih (cur.1, max cur.2 e) ?_ b hb
      intro r hr
      rcases List.mem_cons.mp hr with rfl | hr
      · simp only
        constructor
        · exact hcur.1
        · constructor
          · exact le_max_of_le_left hcur.2.1
          · exact max_le hcur.2.2 hse.2.2
      · exact h r (List.mem_cons_of_mem _ (List.mem_cons_of_mem _ hr))
    · rcases List.mem_cons.mp hb with rfl | hb'
      · exact hcur
      · refine ih (s, e) ?_ b hb'
        intro r hr
        rcases List.mem_cons.mp hr with rfl | hr
        · exact hse
        · exact h r (List.mem_cons_of_mem _ (List.mem_cons_of_mem _ hr))

theorem mergeLoop_of_disjoint (rest : List (Int × Int)) (cur : Int × Int)
    (h : List.Chain' (fun a b : Int × Int => a.2 < b.1) (cur :: rest)) :
    mergeLoop cur rest = cur :: rest := by
  induction rest generalizing cur with
  | nil => rfl
  | cons p rest ih =>
    obtain ⟨s, e⟩ := p
    have h1 : cur.2 < s := List.chain'_cons.mp h |>.1
    simp only [mergeLoop, if_neg (by omega : ¬ s ≤ cur.2)]
    rw [ih (s, e) (List.chain'_cons.mp h).2]

theorem merge_busy_sorted (R : List (Int × Int)) :
    List.Pairwise (fun a b : Int × Int => a.1 ≤ b.1) (merge_busy_ranges R) := by
  unfold merge_busy_ranges
  cases hs : R.mergeSort startLE with
  | nil => simp
  | cons r rest =>
    have := mergeSort_sorted_starts R
    rw [hs] at this
    exact mergeLoop_sorted rest r this

theorem merge_busy_disjoint (R : List (Int × Int)) :
    List.Pairwise (fun a b : Int × Int => a.2 < b.1) (merge_busy_ranges R) := by
  unfold merge_busy_ranges
  cases hs : R.mergeSort startLE with
  | nil => simp
  | cons r rest =>
    have := mergeSort_sorted_starts R
    rw [hs] at this
    exact mergeLoop_disjoint rest r this

theorem merge_busy_covered (R : List (Int × Int)) (x : Int) :
    covered x (merge_busy_ranges R) ↔ covered x R := by
  unfold merge_busy_ranges
  cases hs : R.mergeSort startLE with
  | nil =>
    have : R = [] := by
      have hp := List.mergeSort_perm R startLE
      rw [hs] at hp
      exact (List.Perm.nil_eq hp).symm
    simp [this, covered]
  | cons r rest =>
    have hsorted := mergeSort_sorted_starts R
    rw [hs] at hsorted
    rw [mergeLoop_covered rest r hsorted x]
    have hp := List.mergeSort_perm R startLE
    rw [hs] at hp
    exact covered_perm hp x

theorem merge_busy_bounds (R : List (Int × Int)) (lo hi : Int)
    (h : ∀ r ∈ R, lo ≤ r.1 ∧ r.1 ≤ r.2 ∧ r.2 ≤ hi) :
    ∀ b ∈ merge_busy_ranges R, lo ≤ b.1 ∧ b.1 ≤ b.2 ∧ b.2 ≤ hi := by
  unfold merge_busy_ranges
  cases hs : R.mergeSort startLE with
  | nil => simp
  | cons r rest =>
    refine mergeLoop_bounds rest r lo hi ?_
    intro q hq
    refine h q ?_
    have hqm : q ∈ R.mergeSort startLE := by
      rw [hs]
      exact hq
    exact List.mem_mergeSort.mp hqm

theorem merge_busy_idem (R : List (Int × Int)) :
    merge_busy_ranges (merge_busy_ranges R) = merge_busy_ranges R := by
  have hsorted := merge_busy_sorted R
  have hdisj := merge_busy_disjoint R
  have hself : (merge_busy_ranges R).mergeSort startLE = merge_busy_ranges R := by
    refine List.mergeSort_of_sorted ?_
    exact hsorted.imp (fun hab => by simpa [startLE] using hab)
  conv_lhs => rw [merge_busy_ranges, hself]
  cases ho : merge_busy_ranges R with
  | nil => rfl
  | cons r rest =>
    rw [ho] at hdisj
    exact mergeLoop_of_disjoint rest r hdisj.chain'

theorem wellSep_of_bounds_disjoint (M : List (Int × Int)) (lo hi : Int)
    (hb : ∀ r ∈ M, lo ≤ r.1 ∧ r.1 ≤ r.2 ∧ r.2 ≤ hi)
    (hd : List.Pairwise (fun a b : Int × Int => a.2 < b.1) M) :
    WellSep lo hi M := by
  induction M generalizing lo with
  | nil => trivial
  | cons r rest ih =>
    have hr := hb r (List.mem_cons_self _ _)
    rcases List.pairwise_cons.mp hd with ⟨hhead, htail⟩
    refine ⟨hr.1, hr.2.1, hr.2.2, ih r.2 ?_ htail⟩
    intro q hq
    have hq1 := hb q (List.mem_cons_of_mem _ hq)
    have hq2 := hhead q hq
    exact ⟨by omega, hq1.2.1, hq1.2.2⟩

theorem free_walk_partition (M : List (Int × Int)) (lo hi : Int)
    (h : WellSep lo hi M) (x : Int) :
    countCover x (free_walk lo M hi ++ M) = if lo ≤ x ∧ x < hi then 1 else 0 := by
  induction M generalizing lo with
  | nil =>
    simp only [free_walk, List.append_nil, countCover]
    split
    · rename_i hlt
      simp only [List.countP_cons, List.countP_nil, coversB, decide_eq_true_eq]
      split_ifs <;> omega
    · rename_i hnlt
      simp only [List.countP_nil]
      split_ifs <;> omega
  | cons p rest ih =>
    obtain ⟨s, e⟩ := p
    obtain ⟨h1, h2, h3, h4⟩ := h
    have hmax : max lo e = e := max_eq_right (le_trans h1 h2)
    have hIH := ih e h4
    simp only [free_walk, hmax]
    by_cases hg : lo < s
    · simp only [if_pos hg, countCover, List.countP_append, List.countP_cons,
        List.countP_nil, coversB, decide_eq_true_eq] at hIH ⊢
      split_ifs at hIH ⊢ <;> omega
    · simp only [if_neg hg, countCover, List.countP_append, List.countP_cons,
        List.countP_nil, List.nil_append, coversB, decide_eq_true_eq] at hIH ⊢
      split_ifs at hIH ⊢ <;> omega

theorem clip_busy_bounds (events : List CalEvent) (lo hi : Int) (hwin : lo ≤ hi)
    (hwf : ∀ ev ∈ events, ¬ ev.status = some "cancelled" → ev.rstart ≤ ev.rend) :
    ∀ r ∈ clip_busy events lo hi, lo ≤ r.1 ∧ r.1 ≤ r.2 ∧ r.2 ≤ hi := by
  intro r hr
  simp only [clip_busy, List.mem_filterMap] at hr
  obtain ⟨ev, hev, hmap⟩ := hr
  split at hmap
  · exact absurd hmap (by simp)
  · split at hmap
    · exact absurd hmap (by simp)
    · rename_i hcanc hover
      have hwfe : ev.rstart ≤ ev.rend := by
        refine hwf ev hev ?_
        simpa using hcanc
      rw [Option.some_inj] at hmap
      subst hmap
      simp only [Bool.or_eq_true, decide_eq_true_eq, not_or] at hover
      simp only [le_max_iff, max_le_iff, le_min_iff, min_le_iff]
      omega

theorem has_conflict_eq_any (events : List CalEvent) (ex : Option String) :
    has_conflict events ex
      = events.any (fun e => !(e.status == some "cancelled")
          && !(strTruthy ex && (e.id == ex))) := by
  induction events with
  | nil => rfl
  | cons e rest ih =>
    simp only [has_conflict, List.any_cons]
    cases h1 : (e.status == some "cancelled")
    · cases h2 : (strTruthy ex && (e.id == ex))
      · simp [h1, h2]
      · simp [h1, h2, ih]
    · simp [h1, ih]

/-- C5: `hasConflict(events, excludeEventId)` is true iff some event of the
list is neither cancelled (status exactly `"cancelled"`) nor the excluded
event (exclusion applies only for a truthy exclude id); in particular it is
false on the empty list and on a list of only cancelled events, for every
exclude id. -/
theorem C5_has_conflict_presence (events : List CalEvent) (ex : Option String) :
    (has_conflict events ex = true ↔
      ∃ e ∈ events, ¬ e.status = some "cancelled"
        ∧ ¬ (strTruthy ex = true ∧ e.id = ex))
    ∧ has_conflict [] ex = false
    ∧ ((∀ e ∈ events, e.status = some "cancelled") → has_conflict events ex = false) := by
  refine ⟨?_, rfl, ?_⟩
  · rw [has_conflict_eq_any, List.any_eq_true]
    apply exists_congr
    intro e
    apply and_congr_right
    intro _
    cases h1 : (e.status == some "cancelled") <;>
      cases h2 : strTruthy ex <;>
        cases h3 : (e.id == ex) <;>
          simp_all
  · intro hall
    rw [has_conflict_eq_any]
    rw [List.any_eq_false]
    intro e he
    simp [hall e he]

/-- C5 witness: a list holding only a cancelled event yields no conflict. -/
theorem C5_witness :
    (∀ e ∈ [cancelledEv], e.status = some "cancelled")
    ∧ has_conflict [cancelledEv] (some "x") = false :=
  ⟨by decide, (C5_has_conflict_presence [cancelledEv] (some "x")).2.2 (by decide)⟩

/-- C9: only the exact status string `"cancelled"` is skipped (a missing or
different status qualifies, as the singleton characterization shows), and a
`None` or empty exclude id excludes nothing — even an event whose id is the
empty string still conflicts under an empty exclude id. -/
theorem C9_cancelled_and_falsy_exclude (events : List CalEvent)
    (ex : Option String) (e : CalEvent) :
    ((ex = none ∨ ex = some "") →
      has_conflict events ex
        = events.any (fun x => !(x.status == some "cancelled")))
    ∧ has_conflict [e] none = !(e.status == some "cancelled")
    ∧ has_conflict [emptyIdEv] (some "") = true := by
  refine ⟨?_, ?_, by decide⟩
  · rintro (rfl | rfl) <;> rw [has_conflict_eq_any] <;> simp [strTruthy]
  · rw [has_conflict_eq_any]
    simp [strTruthy]

/-- C9 witness: instantiation at the empty exclude id. -/
theorem C9_witness :
    ((some "" : Option String) = none ∨ (some "" : Option String) = some "")
    ∧ has_conflict [tevSample] (some "")
        = [tevSample].any (fun x => !(x.status == some "cancelled")) :=
  ⟨Or.inr rfl,
   (C9_cancelled_and_falsy_exclude [tevSample] (some "") tevSample).1 (Or.inr rfl)⟩

theorem find_target_event_time (events : List CalEvent) (u : String) (t : Int) :
    find_target_event events u (some t)
      = events.find? (fun e => ((u == "") || ownerMatches u e)
          && decide ((e.rstart - t).natAbs ≤ 3600)) := by
  induction events with
  | nil => rfl
  | cons e rest ih =>
    rw [find_target_event.eq_def, List.find?_cons]
    cases hu : (u == "")
    · cases ho : ownerMatches u e
      · simpa [hu, ho] using ih
      · by_cases hle : (e.rstart - t).natAbs ≤ 3600 <;> simp [hu, ho, hle, ih]
    · by_cases hle : (e.rstart - t).natAbs ≤ 3600 <;> simp [hu, hle, ih]

theorem find_target_event_owner (events : List CalEvent) (u : String)
    (t : Option Int) (hu : u ≠ "") :
    ∀ e, find_target_event events u t = some e → ownerMatches u e = true := by
  have hbu : (u == "") = false := by simpa using hu
  cases t with
  | none =>
    induction events with
    | nil => intro e h; simp [find_target_event] at h
    | cons f rest ih =>
      intro e h
      rw [show find_target_event (f :: rest) u none
          = (if !(u == "") && !ownerMatches u f then find_target_event rest u none
             else some f) from rfl] at h
      split at h
      · exact ih e h
      · rename_i hcond
        have howner : ownerMatches u f = true := by
          cases ho : ownerMatches u f
          · exact absurd (by simp [hbu, ho]) hcond
          · rfl
        rw [Option.some_inj] at h
        exact h ▸ howner
  | some td =>
    induction events with
    | nil => intro e h; simp [find_target_event] at h
    | cons f rest ih =>
      intro e h
      rw [show find_target_event (f :: rest) u (some td)
          = (if !(u == "") && !ownerMatches u f then find_target_event rest u (some td)
             else if (f.rstart - td).natAbs ≤ 3600 then some f
             else find_target_event rest u (some td)) from rfl] at h
      split at h
      · exact ih e h
      · rename_i hcond
        have howner : ownerMatches u f = true := by
          cases ho : ownerMatches u f
          · exact absurd (by simp [hbu, ho]) hcond
          · rfl
        split at h
        · rw [Option.some_inj] at h
          exact h ▸ howner
        · exact ih e h

theorem find_target_event_no_owner (events : List CalEvent) (t : Option Int) :
    find_target_event events "" t
      = events.find? (fun e =>
          match t with
          | some td => decide ((e.rstart - td).natAbs ≤ 3600)
          | none => true) := by
  induction events with
  | nil => rfl
  | cons e rest ih =>
    rw [find_target_event.eq_def, List.find?_cons]
    cases t with
    | none => simp
    | some td => by_cases hle : (e.rstart - td).natAbs ≤ 3600 <;> simp [hle, ih]

/-- C6: a non-empty `userTag` is an owner filter — any returned event carries
the requester's owner marker; with an empty `userTag` the scan ignores
descriptions entirely and keeps only the time test. -/
theorem C6_owner_filter (events : List CalEvent) (u : String) (t : Option Int) :
    (u ≠ "" → ∀ e, find_target_event events u t = some e → ownerMatches u e = true)
    ∧ find_target_event events "" t
        = events.find? (fun e =>
            match t with
            | some td => decide ((e.rstart - td).natAbs ≤ 3600)
            | none => true) :=
  ⟨fun hu => find_target_event_owner events u t hu,
   find_target_event_no_owner events t⟩

/-- C6 witness: a concrete owner-tagged event is returned and matches. -/
theorem C6_witness :
    ("u1" ≠ "")
    ∧ find_target_event [ev1340] "u1" none = some ev1340
    ∧ ownerMatches "u1" ev1340 = true := by
  refine ⟨by decide, by decide, ?_⟩
  exact (C6_owner_filter [ev1340] "u1" none).1 (by decide) ev1340 (by decide)

/-- C7: with a `targetStart`, the resolver returns the first event in scan
order that passes the owner filter and starts within 3600 seconds of the
target (`none` when no event qualifies); with target 14:00 (50400 s) and
candidates starting 13:40 (49200 s) and 16:00 (57600 s) it picks 13:40. -/
theorem C7_time_proximity (events : List CalEvent) (u : String) (t : Int) :
    (find_target_event events u (some t)
      = events.find? (fun e => ((u == "") || ownerMatches u e)
          && decide ((e.rstart - t).natAbs ≤ 3600)))
    ∧ (find_target_event events u (some t) = none ↔
        ∀ e ∈ events, ¬ (((u == "") || ownerMatches u e)
          && decide ((e.rstart - t).natAbs ≤ 3600)) = true)
    ∧ find_target_event [ev1340, ev1600] "u1" (some 50400) = some ev1340 := by
  refine ⟨find_target_event_time events u t, ?_, by decide⟩
  rw [find_target_event_time]
  exact List.find?_eq_none

theorem merge_busy_nil : merge_busy_ranges [] = [] := by
  unfold merge_busy_ranges
  rw [List.mergeSort_nil]

theorem merge_busy_single (r : Int × Int) : merge_busy_ranges [r] = [r] := by
  unfold merge_busy_ranges
  rw [List.mergeSort_singleton]
  rfl

/-- C4: `_merge_busy_ranges` returns ranges sorted ascending by start and
pairwise separated (`end < next start`, so touching inputs are merged into
one range and the output is pairwise disjoint); the pointwise union of the
output equals the union of the input; the function is idempotent and maps
the empty list to the empty list. -/
theorem C4_merge_busy_spec (R : List (Int × Int)) :
    List.Pairwise (fun a b : Int × Int => a.2 < b.1) (merge_busy_ranges R)
    ∧ List.Pairwise (fun a b : Int × Int => a.1 ≤ b.1) (merge_busy_ranges R)
    ∧ (∀ x : Int, covered x (merge_busy_ranges R) ↔ covered x R)
    ∧ merge_busy_ranges (merge_busy_ranges R) = merge_busy_ranges R
    ∧ merge_busy_ranges [] = [] :=
  ⟨merge_busy_disjoint R, merge_busy_sorted R,
   fun x => merge_busy_covered R x, merge_busy_idem R, merge_busy_nil⟩

/-- C10: the in-place `ranges.sort(...)` makes `_merge_busy_ranges` impure
in its argument: the caller's list afterwards is a permutation of the input
(same range values) sorted ascending by start, and on an unsorted input the
post-state genuinely differs from the input list. -/
theorem C10_sort_frame_effect (R : List (Int × Int)) :
    List.Perm (merge_busy_state R) R
    ∧ List.Pairwise (fun a b : Int × Int => a.1 ≤ b.1) (merge_busy_state R)
    ∧ merge_busy_state [((2 : Int), (3 : Int)), (0, 1)] ≠ [((2 : Int), (3 : Int)), (0, 1)] := by
  refine ⟨List.mergeSort_perm R startLE, mergeSort_sorted_starts R, ?_⟩
  intro hfix
  have hs := mergeSort_sorted_starts [((2 : Int), (3 : Int)), (0, 1)]
  rw [show List.mergeSort [((2 : Int), (3 : Int)), (0, 1)] startLE
      = merge_busy_state [((2 : Int), (3 : Int)), (0, 1)] from rfl, hfix] at hs
  rcases List.pairwise_cons.mp hs with ⟨hhead, _⟩
  have := hhead (0, 1) (List.mem_singleton.mpr rfl)
  norm_num at this

/-- C3 counterexample: with the working window `[0, 100)`, a single active
busy event `[0, 50)` and a requested duration of 60 minutes, the only free
candidate `[50, 100)` is shorter than the requested duration and is dropped
by `_compute_free_slots`, so the returned slots plus the merged busy ranges
do not cover the in-window point 60: the reconstruction of `W` fails. -/
theorem C3_counterexample :
    (∀ ev ∈ ex3events, ¬ ev.status = some "cancelled" → ev.rstart ≤ ev.rend)
    ∧ (0 : Int) ≤ 100
    ∧ ((0 : Int) ≤ 60 ∧ (60 : Int) < 100)
    ∧ countCover 60 (compute_free_slots ex3events 0 100 60
        ++ merge_busy_ranges (clip_busy ex3events 0 100)) = 0 := by
  have hclip : clip_busy ex3events 0 100 = [((0 : Int), (50 : Int))] := by decide
  refine ⟨by decide, by decide, by decide, ?_⟩
  simp only [compute_free_slots, hclip, merge_busy_single]
  decide

/-- C3 (amended): the candidate gaps computed by the walk *before* the
`minDuration` filter, together with the merged clipped busy ranges, cover
each point of the working window exactly once and no point outside it
(well-formed event ranges assumed, per the spec's `TimeRange` invariant);
`_compute_free_slots` then returns exactly the candidates of duration ≥
the requested minutes, so slots shorter than the request are omitted from
the reconstruction. -/
theorem C3_partition_amended (events : List CalEvent) (lo hi dur : Int)
    (hwin : lo ≤ hi)
    (hwf : ∀ ev ∈ events, ¬ ev.status = some "cancelled" → ev.rstart ≤ ev.rend) :
    (∀ x : Int,
      countCover x
        (free_walk lo (merge_busy_ranges (clip_busy events lo hi)) hi
          ++ merge_busy_ranges (clip_busy events lo hi))
        = if lo ≤ x ∧ x < hi then 1 else 0)
    ∧ compute_free_slots events lo hi dur
        = (free_walk lo (merge_busy_ranges (clip_busy events lo hi)) hi).filter
            (fun r => r.2 - r.1 ≥ dur * 60) := by
  constructor
  · intro x
    have hb := clip_busy_bounds events lo hi hwin hwf
    have hbm := merge_busy_bounds (clip_busy events lo hi) lo hi hb
    have hd := merge_busy_disjoint (clip_busy events lo hi)
    exact free_walk_partition _ lo hi (wellSep_of_bounds_disjoint _ lo hi hbm hd) x
  · rfl

/-- C3 witness: the partition at a concrete window, busy set and point. -/
theorem C3_witness :
    ((0 : Int) ≤ 100)
    ∧ countCover 60
        (free_walk 0 (merge_busy_ranges (clip_busy ex3events 0 100)) 100
          ++ merge_busy_ranges (clip_busy ex3events 0 100)) = 1 := by
  refine ⟨by decide, ?_⟩
  have h := (C3_partition_amended ex3events 0 100 60 (by decide) (by decide)).1 60
  rw [if_pos (by norm_num)] at h
  exact h

theorem handle_message_actions_shape (cfg : Config) (fetch : Int → Int → List CalEvent)
    (now : Int) (uid : String) (intent : Intent) :
    (handle_message cfg fetch now uid intent).2
      = match (handle_message cfg fetch now uid intent).1 with
        | Outcome.created r => [CalAction.insert r]
        | Outcome.updated i r => [CalAction.update i r]
        | Outcome.deleted i => [CalAction.delete i]
        | _ => [] := by
  simp only [handle_message, decide_tail]
  repeat' split
  all_goals simp_all

/-- C8: on the non-success outcomes — `notFound` (change/cancel target not
resolved), `refused` (conflict), and `error` (validation failure or any
other raised exception) — the handler issues no calendar mutation: its
action list is empty. -/
theorem C8_no_mutation_on_failure (cfg : Config) (fetch : Int → Int → List CalEvent)
    (now : Int) (uid : String) (intent : Intent) :
    ((handle_message cfg fetch now uid intent).1 = Outcome.notFound →
      (handle_message cfg fetch now uid intent).2 = [])
    ∧ (∀ slots, (handle_message cfg fetch now uid intent).1 = Outcome.refused slots →
      (handle_message cfg fetch now uid intent).2 = [])
    ∧ ((handle_message cfg fetch now uid intent).1 = Outcome.error →
      (handle_message cfg fetch now uid intent).2 = [])
    ∧ ((intent.kind = "new" ∨ intent.kind = "change") →
        (intent.istart = none ∨ intent.iend = none) →
        handle_message cfg fetch now uid intent = (Outcome.error, [])) := by
  have h := handle_message_actions_shape cfg fetch now uid intent
  refine ⟨fun h1 => ?_, fun slots h1 => ?_, fun h1 => ?_, fun hk hm => ?_⟩
  · rw [h, h1]
  · rw [h, h1]
  · rw [h, h1]
  · have hc : ((intent.kind == "new" || intent.kind == "change")
        && (intent.istart.isNone || intent.iend.isNone)) = true := by
      rcases hk with h2 | h2 <;> rcases hm with h3 | h3 <;> simp [h2, h3]
    unfold handle_message
    rw [if_pos hc]

/-- C8 witness: concrete non-success requests — a cancel over an empty
calendar (`notFound`), a conflicting new request (`refused`), and a new
request missing its start (validation failure) — all mutate nothing. -/
theorem C8_witness :
    ((handle_message cfg0 fetchEmpty 0 "" ⟨"cancel", none, none, none⟩).1 = Outcome.notFound
      ∧ (handle_message cfg0 fetchEmpty 0 "" ⟨"cancel", none, none, none⟩).2 = [])
    ∧ ((handle_message cfg0 fetchTev 0 "" ⟨"new", some 10, some 20, none⟩).1 = Outcome.refused []
      ∧ (handle_message cfg0 fetchTev 0 "" ⟨"new", some 10, some 20, none⟩).2 = [])
    ∧ handle_message cfg0 fetchEmpty 0 "" ⟨"new", none, some 20, none⟩ = (Outcome.error, []) := by
  have hclip : clip_busy [tevSample] 0 0 = [] := by decide
  have hrs : refusal_slots cfg0 fetchTev 10 20 = [] := by
    simp only [refusal_slots, cfg0, fetchTev, compute_free_slots, hclip, merge_busy_nil]
    decide
  have hh : handle_message cfg0 fetchTev 0 "" ⟨"new", some 10, some 20, none⟩
      = (Outcome.refused [], []) := by
    simp only [handle_message, decide_tail]
    norm_num
    rw [if_neg (by decide : ¬ ("new" : String) = "cancel"),
      if_neg (by decide : ¬ ("new" : String) = "change"),
      if_pos (by decide : has_conflict (fetchTev 10 20) none = true), hrs]
  refine ⟨⟨rfl, (C8_no_mutation_on_failure cfg0 fetchEmpty 0 ""
      ⟨"cancel", none, none, none⟩).1 rfl⟩,
    ⟨by rw [hh], (C8_no_mutation_on_failure cfg0 fetchTev 0 ""
      ⟨"new", some 10, some 20, none⟩).2.1 [] (by rw [hh])⟩,
    (C8_no_mutation_on_failure cfg0 fetchEmpty 0 "" ⟨"new", none, some 20, none⟩).2.2.2
      (Or.inl rfl) (Or.inl rfl)⟩

/-- C1: a `new` intent with both datetimes present runs conflict detection
over the proposed range with no exclusion; on conflict the decision is
`refused` with the free slots of the proposed start's calendar day computed
from the requested duration `(end − start) / 60` minutes, otherwise the
decision is `created` for the proposed range (with the single insert
mutation). -/
theorem C1_new_intent (cfg : Config) (fetch : Int → Int → List CalEvent)
    (now : Int) (uid : String) (s t : Int) (tgt : Option Int) :
    handle_message cfg fetch now uid ⟨"new", some s, some t, tgt⟩
      = if has_conflict (fetch s t) none then
          (Outcome.refused (compute_free_slots (fetch (cfg.dayWindow s).1 (cfg.dayWindow s).2)
              (cfg.workWindow s).1 (cfg.workWindow s).2 ((t - s) / 60)), [])
        else (Outcome.created (s, t), [CalAction.insert (s, t)]) := by
  simp only [handle_message, decide_tail, refusal_slots]
  norm_num
  rw [if_neg (by decide : ¬ ("new" : String) = "cancel"),
    if_neg (by decide : ¬ ("new" : String) = "change")]

/-- C2: a `change` intent resolves the target first — an unresolved target
returns `notFound` (with no conflict check and no mutation); a resolved
target with id `i` runs conflict detection over the new range excluding
`i`: on conflict the decision is `refused` with the day's free slots,
otherwise `updated i` with the new range (and the single update mutation). -/
theorem C2_change_intent (cfg : Config) (fetch : Int → Int → List CalEvent)
    (now : Int) (uid : String) (s t : Int) (tgt : Option Int) :
    (find_target_event
        (fetch (target_fetch_window now tgt).1 (target_fetch_window now tgt).2) uid tgt = none →
      handle_message cfg fetch now uid ⟨"change", some s, some t, tgt⟩
        = (Outcome.notFound, []))
    ∧ (∀ ev i,
        find_target_event
          (fetch (target_fetch_window now tgt).1 (target_fetch_window now tgt).2) uid tgt = some ev →
        ev.id = some i →
        handle_message cfg fetch now uid ⟨"change", some s, some t, tgt⟩
          = if has_conflict (fetch s t) (some i) then
              (Outcome.refused (compute_free_slots (fetch (cfg.dayWindow s).1 (cfg.dayWindow s).2)
                  (cfg.workWindow s).1 (cfg.workWindow s).2 ((t - s) / 60)), [])
            else (Outcome.updated i (s, t), [CalAction.update i (s, t)])) := by
  constructor
  · intro hnone
    simp only [handle_message, decide_tail, refusal_slots]
    norm_num
    rw [if_neg (by decide : ¬ ("change" : String) = "cancel")]
    simp only [hnone]
  · intro ev i hsome hid
    simp only [handle_message, decide_tail, refusal_slots]
    norm_num
    rw [if_neg (by decide : ¬ ("change" : String) = "cancel")]
    simp only [hsome, hid]

/-- C2 witness: a concrete change request whose resolved target excludes
itself from conflict detection and gets `updated`. -/
theorem C2_witness :
    find_target_event
        (fetchTev (target_fetch_window 0 none).1 (target_fetch_window 0 none).2) "" none
      = some tevSample
    ∧ tevSample.id = some "T"
    ∧ handle_message cfg0 fetchTev 0 "" ⟨"change", some 10, some 20, none⟩
        = (Outcome.updated "T" (10, 20), [CalAction.update "T" (10, 20)])
    ∧ handle_message cfg0 fetchEmpty 0 "" ⟨"change", some 10, some 20, none⟩
        = (Outcome.notFound, []) := by
  refine ⟨rfl, rfl, ?_, (C2_change_intent cfg0 fetchEmpty 0 "" 10 20 none).1 rfl⟩
  have h := (C2_change_intent cfg0 fetchTev 0 "" 10 20 none).2 tevSample "T" rfl rfl
  rw [h, if_neg (by decide : ¬ has_conflict (fetchTev 10 20) (some "T") = true)]
